import Mathlib

/-!
Verification of the RAG ingestion/retrieval core of this repository.

The Python sources `src/rag/ingest.py` and `src/rag/retrieve.py` are shallowly
embedded below.  Text is modelled as `String` (a wrapper around `List Char`),
Python string length as `String.length` (code points), and Python floats as `ℚ`.
Python regular-expression character classes are modelled by explicit decidable
character predicates; `\w`, `\d` and `str.lower` are Unicode-approximated
(ASCII plus the Latin accented range actually used by the patterns in the
sources), as noted at each definition.
-/

namespace RagCore

/-! ## Character classes -/

/-- Python `re` whitespace class `\s` (and the `str.strip` / `str.isspace`
whitespace set): ASCII whitespace plus the Unicode whitespace code points
Python recognises. -/
def pySpace (c : Char) : Bool :=
  c = ' ' ∨ c = '\t' ∨ c = '\n' ∨ c = '\x0d' ∨ c = '\x0b' ∨ c = '\x0c' ∨
  (0x1c ≤ c.val ∧ c.val ≤ 0x1f) ∨ c.val = 0x85 ∨ c.val = 0xa0 ∨
  c.val = 0x1680 ∨ (0x2000 ≤ c.val ∧ c.val ≤ 0x200a) ∨
  c.val = 0x2028 ∨ c.val = 0x2029 ∨ c.val = 0x202f ∨ c.val = 0x205f ∨ c.val = 0x3000

/-- Python `\d`, restricted to ASCII decimal digits (Python also accepts other
Unicode decimal digits; the sources only ever feed chapter numerals). -/
def pyDigit (c : Char) : Bool := '0' ≤ c ∧ c ≤ '9'

/-- Python `str.lower` / `re.IGNORECASE` folding, for ASCII letters and the
Latin-1 uppercase range (covers the accented letters Í and Ó appearing in the
chapter patterns). -/
def lowerCh (c : Char) : Char :=
  if 'A' ≤ c ∧ c ≤ 'Z' then Char.ofNat (c.toNat + 32)
  else if 0xC0 ≤ c.val ∧ c.val ≤ 0xDE ∧ c.val ≠ 0xD7 then Char.ofNat (c.toNat + 32)
  else c

/-- Python `\w` (word character), approximated: ASCII alphanumerics, the
underscore, and the Latin accented letter ranges U+00C0–U+024F (minus the two
arithmetic signs × and ÷). -/
def pyWord (c : Char) : Bool :=
  c.isAlphanum ∨ c = '_' ∨
  (0xC0 ≤ c.val ∧ c.val ≤ 0x24F ∧ c.val ≠ 0xD7 ∧ c.val ≠ 0xF7)

/-- The character class kept by the first cleaning substitution in
`clean_pdf_text`: `[\w\s\.\,\;\:\!\?\-\(\)\[\]\{\}\'\""\n]` (the double quote
appears twice in the source class; the duplicate is redundant). -/
def keepChar (c : Char) : Bool :=
  pyWord c ∨ pySpace c ∨
  c = '.' ∨ c = ',' ∨ c = ';' ∨ c = ':' ∨ c = '!' ∨ c = '?' ∨ c = '-' ∨
  c = '(' ∨ c = ')' ∨ c = '[' ∨ c = ']' ∨ c = Char.ofNat 0x7b ∨ c = Char.ofNat 0x7d ∨
  c = '\'' ∨ c = '\"' ∨ c = '\n'

/-! ## A leftmost-rewrite engine modelling `re.sub`

`reSub m k l` scans `l` left to right.  `m` is a matcher: applied to a suffix,
it returns the length of a match starting at the head of that suffix,
together with the replacement text.  Matches are replaced and scanning resumes
after the match (Python `re.sub` semantics for the simple patterns used by the
sources, none of which can match the empty string; a `some (0, _)` answer is
treated as no match).  The counter `k` carries the number of still-to-skip
characters of the current match, making the recursion structural. -/

def reSub (m : List Char → Option (Nat × List Char)) : Nat → List Char → List Char
  | _, [] => []
  | k + 1, _ :: cs => reSub m k cs
  | 0, c :: cs =>
    match m (c :: cs) with
    | some (n + 1, rep) => rep ++ reSub m n cs
    | _ => c :: reSub m 0 cs

/-- `re.sub` over a whole string. -/
def applySub (m : List Char → Option (Nat × List Char)) (l : List Char) : List Char :=
  reSub m 0 l

/-! ### Matchers for the cleaning pipeline -/

/-- `[^\w\s\.\,…]+ → " "`: a maximal run of non-kept characters becomes one space. -/
def mArtifacts (l : List Char) : Option (Nat × List Char) :=
  let n := (l.takeWhile (fun c => !keepChar c)).length
  if n = 0 then none else some (n, [' '])

/-- `\s+ → " "`: a maximal whitespace run becomes one space. -/
def mWhitespace (l : List Char) : Option (Nat × List Char) :=
  let n := (l.takeWhile pySpace).length
  if n = 0 then none else some (n, [' '])

/-- `\.{3,} → "..."`. -/
def mDots (l : List Char) : Option (Nat × List Char) :=
  let n := (l.takeWhile (· = '.')).length
  if 3 ≤ n then some (n, ['.', '.', '.']) else none

/-- `-{2,} → "--"`. -/
def mDashes (l : List Char) : Option (Nat × List Char) :=
  let n := (l.takeWhile (· = '-')).length
  if 2 ≤ n then some (n, ['-', '-']) else none

/-- `str.replace(c, "")`. -/
def mDrop (x : Char) (l : List Char) : Option (Nat × List Char) :=
  match l with
  | c :: _ => if c = x then some (1, []) else none
  | [] => none

/-- `str.replace(c, " ")`. -/
def mToSpace (x : Char) (l : List Char) : Option (Nat × List Char) :=
  match l with
  | c :: _ => if c = x then some (1, [' ']) else none
  | [] => none

/-- `\n{4,} → "\n\n\n"`. -/
def mNlRun (l : List Char) : Option (Nat × List Char) :=
  let n := (l.takeWhile (· = '\n')).length
  if 4 ≤ n then some (n, ['\n', '\n', '\n']) else none

/-- `[ \t]*\n[ \t]* → "\n"`. -/
def mNlTrim (l : List Char) : Option (Nat × List Char) :=
  let a := l.takeWhile (fun c => c = ' ' ∨ c = '\t')
  match l.drop a.length with
  | '\n' :: rest =>
    let b := rest.takeWhile (fun c => c = ' ' ∨ c = '\t')
    some (a.length + 1 + b.length, ['\n'])
  | _ => none

/-! ### Chapter-marker patterns (`KEYWORD\s+\d+`, `re.IGNORECASE`) -/

/-- Caseless match of the literal `kw` at the head of `l`; returns the number
of consumed characters (`kw.length`) on success. -/
def matchKw : List Char → List Char → Option Nat
  | [], _ => some 0
  | _ :: _, [] => none
  | k :: ks, c :: cs =>
    if lowerCh c = lowerCh k then (matchKw ks cs).map (· + 1) else none

/-- Match `kw` then `\s+` then `\d+` (all greedy) at the head of `l`; returns
the total match length and the digit group. -/
def chapterAt (kw : List Char) (l : List Char) : Option (Nat × List Char) :=
  match matchKw kw l with
  | none => none
  | some k =>
    let rest := l.drop k
    let w := (rest.takeWhile pySpace).length
    if w = 0 then none
    else
      let digits := (rest.drop w).takeWhile pyDigit
      if digits.length = 0 then none
      else some (k + w + digits.length, digits)

/-- Matcher for `re.sub(f"({KEYWORD}\s+\d+)", r"\n\1\n", text, flags=IGNORECASE)`:
the match is kept verbatim, wrapped in newlines. -/
def mChapter (kw : List Char) (l : List Char) : Option (Nat × List Char) :=
  match chapterAt kw l with
  | some (n, _) => some (n, '\n' :: (l.take n ++ ['\n']))
  | none => none

/-- The chapter header keywords, in source order. -/
def chapter_keywords : List String :=
  ["CAPÍTULO", "CAPITULO", "Chapter", "Sección", "Section", "Tema", "Parte"]

/-- Sequential application of the seven chapter-header substitutions. -/
def chapterSubs (l : List Char) : List Char :=
  chapter_keywords.foldl (fun t kw => applySub (mChapter kw.data) t) l

/-! ### Line splitting, stripping and filtering -/

/-- Python `text.split('\n')` on the underlying character list
(`"".split('\n') = [""]`). -/
def splitNl : List Char → List (List Char)
  | [] => [[]]
  | c :: cs =>
    match splitNl cs with
    | [] => [[c]]
    | r :: rs => if c = '\n' then [] :: r :: rs else (c :: r) :: rs

/-- Python `str.strip()` on the underlying character list. -/
def stripChars (l : List Char) : List Char :=
  ((l.dropWhile pySpace).reverse.dropWhile pySpace).reverse

/-- Python `str.strip()`. -/
def pyStrip (s : String) : String := ⟨stripChars s.data⟩

/-- Python `str.isdigit()` (ASCII approximation, cf. `pyDigit`). -/
def isDigits (l : List Char) : Bool := !l.isEmpty && l.all pyDigit

/-- The final line filter of `clean_pdf_text`: strip each line; drop empty
lines, drop all-digit lines of length ≤ 3 (page numbers), keep lines of
length > 1. -/
def filterLines (ls : List (List Char)) : List (List Char) :=
  ls.filterMap fun l =>
    let s := stripChars l
    if s.isEmpty then none
    else if isDigits s ∧ s.length ≤ 3 then none
    else if 1 < s.length then some s
    else none

/-- `"\n".join` on character lists. -/
def joinNl : List (List Char) → List Char
  | [] => []
  | [l] => l
  | l :: ls => l ++ '\n' :: joinNl ls

/-- The character-level stages of `clean_pdf_text` before the line filter,
stage by stage in source order. -/
def preClean (l : List Char) : List Char :=
  let t1 := applySub mArtifacts l
  let t2 := applySub mWhitespace t1
  let t3 := applySub mDots t2
  let t4 := applySub mDashes t3
  let t5 := applySub (mDrop '\x00') t4
  let t6 := applySub (mDrop '\uFEFF') t5
  let t7 := applySub (mToSpace '\xA0') t6
  let t8 := applySub (mToSpace '\t') t7
  let t9 := chapterSubs t8
  let t10 := applySub mNlRun t9
  applySub mNlTrim t10

/-- The whole `clean_pdf_text` pipeline on the underlying character list:
the substitution stages, then the line split/filter/join and final strip. -/
def cleanChars (l : List Char) : List Char :=
  stripChars (joinNl (filterLines (splitNl (preClean l))))

/-- `clean_pdf_text` from `src/rag/ingest.py` (`if not text: return ""`). -/
def clean_pdf_text (text : String) : String :=
  if text = "" then "" else ⟨cleanChars text.data⟩

end RagCore

namespace RagCore

/-! ## `extract_chapter_info` and `SmartTextSplitter` (`src/rag/ingest.py`) -/

/-- Leftmost caseless search for `kw` + `\s+` + `\d+`; returns the digit group
of the first match (`re.search` with `re.IGNORECASE`). -/
def searchChapter (kw : List Char) : List Char → Option (List Char)
  | [] => none
  | c :: cs =>
    match chapterAt kw (c :: cs) with
    | some (_, digits) => some digits
    | none => searchChapter kw cs

/-- The pattern/label pairs of `extract_chapter_info`, in source order (the two
CAPÍTULO spellings share the accented label). -/
def chapter_extract_patterns : List (String × String) :=
  [("CAPÍTULO", "CAPÍTULO"), ("CAPITULO", "CAPÍTULO"), ("Chapter", "Chapter"),
   ("Sección", "Sección"), ("Section", "Section"), ("Tema", "Tema"), ("Parte", "Parte")]

/-- Numeric value of a digit string (Python `int(...)` on the `\d+` group). -/
def natOfDigits (l : List Char) : Nat :=
  l.foldl (fun acc c => 10 * acc + (c.toNat - '0'.toNat)) 0

/-- The chapter metadata extracted from a piece of text: the
`current_chapter` label (`f"{prefix} {match.group(1)}"`) and the
`chapter_number` (`int(match.group(1))`).  `none` models the all-`None`
dictionary. -/
structure ChapterInfo where
  current_chapter : String
  chapter_number : Nat
deriving DecidableEq, Repr

/-- `extract_chapter_info`: first pattern (in order) with a caseless
`KEYWORD\s+(\d+)` match wins. -/
def extract_chapter_info (text : String) : Option ChapterInfo :=
  chapter_extract_patterns.findSome? fun kwPre =>
    (searchChapter kwPre.1.data text.data).map fun g =>
      ⟨kwPre.2 ++ " " ++ ⟨g⟩, natOfDigits g⟩

/-- A chunk produced by the splitter: its (stripped) content and the chapter
metadata dictionary active when it was flushed. -/
structure Chunk where
  content : String
  metadata : Option ChapterInfo
deriving DecidableEq, Repr

/-- The splitter configuration (`SmartTextSplitter.__init__`). -/
structure SmartTextSplitter where
  chunk_size : Nat
  chunk_overlap : Nat
  preserve_chapters : Bool
deriving DecidableEq, Repr

/-- Python `sep.join(xs)`. -/
def pyJoin (sep : String) : List String → String
  | [] => ""
  | [x] => x
  | x :: xs => x ++ sep ++ pyJoin sep xs

/-- `"\n".join` on strings. -/
def joinLines (ls : List String) : String :=
  pyJoin "\n" ls

/-- `SmartTextSplitter._find_natural_split`: first blank line from the midpoint
onward, else the midpoint. -/
def SmartTextSplitter.find_natural_split (_self : SmartTextSplitter)
    (lines : List String) : Nat :=
  let start := lines.length / 2
  match (lines.drop start).findIdx? (fun l => (pyStrip l).isEmpty) with
  | some j => start + j
  | none => lines.length / 2

/-- The loop state of `split_text`: emitted chunks, the accumulating buffer
string, its lines, and the current chapter metadata. -/
structure SplitState where
  chunks : List Chunk
  current_chunk : String
  current_chunk_lines : List String
  chunk_metadata : Option ChapterInfo
deriving DecidableEq, Repr

/-- One iteration of the `for line in lines` loop of `split_text`. -/
def SmartTextSplitter.split_step (self : SmartTextSplitter) (st : SplitState)
    (line : String) : SplitState :=
  let ci := extract_chapter_info line
  if ci.isSome ∧ st.current_chunk ≠ "" ∧
      self.chunk_size / 2 < st.current_chunk.length then
    { chunks := st.chunks ++ [⟨pyStrip st.current_chunk, st.chunk_metadata⟩],
      current_chunk := line ++ "\n",
      current_chunk_lines := [line],
      chunk_metadata := ci }
  else
    let cur := st.current_chunk ++ line ++ "\n"
    let curLines := st.current_chunk_lines ++ [line]
    let meta := if ci.isSome then ci else st.chunk_metadata
    if self.chunk_size ≤ cur.length then
      let sp := self.find_natural_split curLines
      if 0 < sp then
        { chunks := st.chunks ++ [⟨pyStrip (joinLines (curLines.take sp)), meta⟩],
          current_chunk := joinLines ((curLines.take sp).drop (sp - 3)) ++ "\n",
          current_chunk_lines := (curLines.take sp).drop (sp - 3),
          chunk_metadata := meta }
      else
        { chunks := st.chunks ++ [⟨pyStrip cur, meta⟩],
          current_chunk := "",
          current_chunk_lines := [],
          chunk_metadata := none }
    else
      { chunks := st.chunks,
        current_chunk := cur,
        current_chunk_lines := curLines,
        chunk_metadata := meta }

/-- `SmartTextSplitter.split_text`: fold the loop over the lines, then flush
the final non-blank buffer. -/
def SmartTextSplitter.split_text (self : SmartTextSplitter) (text : String) :
    List Chunk :=
  if text = "" then []
  else
    let lines := (splitNl text.data).map fun l => (⟨l⟩ : String)
    let fin := lines.foldl self.split_step ⟨[], "", [], none⟩
    if pyStrip fin.current_chunk ≠ "" then
      fin.chunks ++ [⟨pyStrip fin.current_chunk, fin.chunk_metadata⟩]
    else fin.chunks

end RagCore

namespace RagCore

/-! ## `DocumentRetriever` (`src/rag/retrieve.py`)

The external collaborators are abstracted as functions: `embed` models
`EmbeddingModel.get_embedding` and `store` models `client.search` (taking the
query vector, the limit and the score threshold).  Both return `Except ε _`:
an `Except.error` models a raised exception, which the `try/except` of
`search_similar_documents` turns into an empty result list. -/

/-- Python `str.lower`. -/
def lowerStr (s : String) : String := ⟨s.data.map lowerCh⟩

/-- Exact-prefix test on character lists. -/
def litPrefix : List Char → List Char → Bool
  | [], _ => true
  | _ :: _, [] => false
  | a :: as, b :: bs => a = b && litPrefix as bs

/-- Python substring containment (`needle in hay`). -/
def containsSub (needle : List Char) : List Char → Bool
  | [] => needle.isEmpty
  | c :: cs => litPrefix needle (c :: cs) || containsSub needle cs

/-- Python `needle in hay` on strings. -/
def pyContains (needle hay : String) : Bool := containsSub needle.data hay.data

/-- Python `str.replace(old, new)` (leftmost, non-overlapping; for the
nonempty `old` arguments used by `_expand_query`). -/
def pyReplace (s old new : String) : String :=
  ⟨applySub (fun l => if litPrefix old.data l then some (old.data.length, new.data) else none) s.data⟩

/-- Leftmost search for the pattern `kw(\d+)` (`kw` here carries its trailing
literal space, e.g. `"capítulo "`); returns the digit group of the first
match, modelling `re.search` on the lowered query. -/
def searchKwNum (kw : List Char) : List Char → Option (List Char)
  | [] => none
  | c :: cs =>
    if litPrefix kw (c :: cs) then
      let digits := ((c :: cs).drop kw.length).takeWhile pyDigit
      if digits.isEmpty then searchKwNum kw cs else some digits
    else searchKwNum kw cs

/-- A query-expansion pattern of `_expand_query`: a numbered-section pattern
`r"<kw> (\d+)"` or a literal-substring pattern. -/
inductive QueryPat
  | chap (kw : String)
  | lit (s : String)
deriving DecidableEq, Repr

/-- The `spanish_patterns` list, in source order. -/
def spanish_patterns : List QueryPat :=
  [.chap "capítulo", .chap "sección", .chap "tema", .chap "parte",
   .lit "de qué trata", .lit "qué dice", .lit "qué contiene", .lit "habla sobre",
   .lit "menciona", .lit "describe", .lit "explica",
   .lit "json example", .lit "example request body", .lit "python example",
   .lit "code sample", .lit "curl"]

/-- The raw pattern string, used by the source's `"capítulo" in pattern` and
`word in pattern` membership tests. -/
def QueryPat.patternString : QueryPat → String
  | .chap kw => kw ++ " (\\d+)"
  | .lit s => s

/-- `re.search(pattern, query.lower())`: `some g` on a match (`g` the digit
group of a `chap` pattern, `none` inside for literal patterns). -/
def QueryPat.search : QueryPat → String → Option (Option String)
  | .chap kw, lq => (searchKwNum (kw ++ " ").data lq.data).map fun g => some ⟨g⟩
  | .lit s, lq => if pyContains s lq then some none else none

/-- The body of the `for pattern in spanish_patterns` loop: the first matching
pattern fires its branch, then the loop breaks. -/
def expandLoop (query lq : String) : List String :=
  match spanish_patterns.findSome? (fun p => (p.search lq).map fun g => (p, g)) with
  | none => []
  | some (p, g) =>
    if pyContains "capítulo" p.patternString then
      match g with
      | some n =>
        ["capítulo " ++ n, "chapter " ++ n, "capitulo " ++ n,
         "sección " ++ n, "tema " ++ n]
      | none => []
    else if pyContains "trata" p.patternString ∨ pyContains "dice" p.patternString ∨
        pyContains "contiene" p.patternString then
      [pyReplace query "de qué trata" "qué contiene",
       pyReplace query "de qué trata" "qué dice",
       pyReplace query "qué dice" "de qué trata",
       pyReplace query "qué contiene" "de qué trata"]
    else []

/-- Order-preserving case-insensitive dedup (`seen` accumulates lowered
entries). -/
def dedupCaseless (seen : List String) : List String → List String
  | [] => []
  | q :: qs =>
    if lowerStr q ∈ seen then dedupCaseless seen qs
    else q :: dedupCaseless (lowerStr q :: seen) qs

/-- `DocumentRetriever._expand_query`. -/
def expand_query (query : String) : List String :=
  let lq := lowerStr query
  let expanded :=
    [query] ++ expandLoop query lq ++
    (if pyContains "manual" lq then
      ["manual del conductor", "manual conductor", "driver manual", "manual"]
     else [])
  (dedupCaseless [] expanded).take 5

/-- A point returned by `client.search`: the payload fields read by the
retriever (`content` is accessed unconditionally, the others through
`payload.get(..., default)`, hence `Option`) and the similarity score. -/
structure StoreHit where
  content : String
  filename : Option String
  chunk_index : Option Nat
  content_type : Option String
  score : ℚ
deriving DecidableEq, Repr

/-- A formatted search result dictionary of `search_similar_documents`. -/
structure RetrievedDoc where
  content : String
  filename : String
  chunk_index : Nat
  similarity_score : ℚ
  content_type : String
  search_query : String
deriving DecidableEq, Repr

/-- The multi-threshold loop: break below the 0.1 floor, keep the first
non-empty result set, propagate store exceptions (`.error` models a raised
exception escaping the loop). -/
def tryThresholds {ε E : Type} (search : ℚ → Except ε (List E)) :
    List ℚ → Except ε (List E)
  | [] => .ok []
  | t :: ts =>
    if t < 1 / 10 then .ok []
    else
      match search t with
      | .error e => .error e
      | .ok results =>
        if results.isEmpty then tryThresholds search ts else .ok results

/-- The `for result in search_results` formatting loop: skip hits whose
content already occurs in the accumulated results, append the rest. -/
def formatHits (search_query : String) (acc : List RetrievedDoc)
    (hits : List StoreHit) : List RetrievedDoc :=
  hits.foldl
    (fun acc r =>
      if acc.any (fun x => x.content == r.content) then acc
      else acc ++ [⟨r.content, r.filename.getD "unknown", r.chunk_index.getD 0,
                    r.score, r.content_type.getD "unknown", search_query⟩])
    acc

/-- Descending similarity-score order (`sort(key=..., reverse=True)`). -/
def scoreGe (a b : RetrievedDoc) : Prop := b.similarity_score ≤ a.similarity_score

instance : DecidableRel scoreGe := fun a b =>
  inferInstanceAs (Decidable (b.similarity_score ≤ a.similarity_score))

/-- The `for search_query in queries` loop: embed the variant, run the
threshold loop, format-and-deduplicate the hits into the accumulator; any
exception escapes the loop. -/
def searchLoop {ε V : Type} (embed : String → Except ε V)
    (store : V → Nat → ℚ → Except ε (List StoreHit)) (limit : Nat)
    (score_threshold : ℚ) :
    List String → List RetrievedDoc → Except ε (List RetrievedDoc)
  | [], acc => .ok acc
  | search_query :: qs, acc =>
    match embed search_query with
    | .error e => .error e
    | .ok qe =>
      match tryThresholds (fun t => store qe limit t)
          [score_threshold, score_threshold - 1 / 10, score_threshold - 2 / 10] with
      | .error e => .error e
      | .ok hits => searchLoop embed store limit score_threshold qs
          (formatHits search_query acc hits)

/-- `DocumentRetriever.search_similar_documents`.  Any exception from the
embedding model or the vector store is caught by the surrounding
`try/except` and yields `[]`. -/
def search_similar_documents {ε V : Type} (embed : String → Except ε V)
    (store : V → Nat → ℚ → Except ε (List StoreHit)) (query : String)
    (limit : Nat) (score_threshold : ℚ) (use_query_expansion : Bool) :
    List RetrievedDoc :=
  let queries := if use_query_expansion then expand_query query else [query]
  match searchLoop embed store limit score_threshold queries [] with
  | .ok all => (all.insertionSort scoreGe).take limit
  | .error _ => []

end RagCore

namespace RagCore

/-! ## `get_context_for_query` (`src/rag/retrieve.py`) -/

/-- Kernel-computable floor of a rational (`Int.fdiv` is floor division and
the denominator is positive). -/
def ratFloor (q : ℚ) : ℤ := q.num.fdiv q.den

/-- Python `round(x, 3)` on exact rationals: round half to even at the third
decimal (the float model is exact ℚ arithmetic). -/
def round3 (q : ℚ) : ℚ :=
  let s := q * 1000
  let f : ℤ := ratFloor s
  let r := s - f
  let k : ℤ :=
    if r < 1 / 2 then f
    else if 1 / 2 < r then f + 1
    else if f % 2 = 0 then f else f + 1
  (k : ℚ) / 1000

/-- Python `str(float)` for an exact multiple of 1/1000 (the result of
`round3`): sign, integer part, then the fractional digits with trailing zeros
removed, `.0` when the value is integral. -/
def fmtThousandths (q : ℚ) : String :=
  let k : ℤ := ratFloor (q * 1000)
  let sign := if k < 0 then "-" else ""
  let a := k.natAbs
  let ip := a / 1000
  let fp := a % 1000
  let frac :=
    if fp = 0 then "0"
    else if fp % 100 = 0 then toString (fp / 100)
    else if fp % 10 = 0 then toString (fp / 100) ++ toString (fp / 10 % 10)
    else toString (fp / 100) ++ toString (fp / 10 % 10) ++ toString (fp % 10)
  sign ++ toString ip ++ "." ++ frac

/-- A `sources` entry of the context bundle (scores already rounded). -/
structure SourceEntry where
  filename : String
  chunk_index : Nat
  similarity_score : ℚ
  content_type : String
  search_query : String
deriving DecidableEq, Repr

/-- The dictionary returned by `get_context_for_query`. -/
structure ContextBundle where
  context : String
  context_count : Nat
  similarity_scores : String
  sources : List SourceEntry
deriving DecidableEq, Repr

/-- `f"Chunk {doc['chunk_index'] + 1}: {doc['content']}\n"`. -/
def chunkText (d : RetrievedDoc) : String :=
  "Chunk " ++ toString (d.chunk_index + 1) ++ ": " ++ d.content ++ "\n"

/-- `f"\n[Document: {filename}]\n"`. -/
def docHeader (filename : String) : String :=
  "\n[Document: " ++ filename ++ "]\n"

/-- The `sources.append({...})` record for an appended chunk. -/
def mkSource (d : RetrievedDoc) : SourceEntry :=
  ⟨d.filename, d.chunk_index, round3 d.similarity_score, d.content_type,
   d.search_query⟩

/-- `docs_by_file`: group by filename in first-seen order (Python dict
insertion order), each group keeping list order. -/
def insertByFile (groups : List (String × List RetrievedDoc))
    (d : RetrievedDoc) : List (String × List RetrievedDoc) :=
  match groups with
  | [] => [(d.filename, [d])]
  | (k, g) :: rest =>
    if k = d.filename then (k, g ++ [d]) :: rest
    else (k, g) :: insertByFile rest d

/-- Grouping of the relevant docs by filename. -/
def groupByFile (docs : List RetrievedDoc) : List (String × List RetrievedDoc) :=
  docs.foldl insertByFile []

/-- Chunk-index order used to sort each file group (`sort` is stable). -/
def chunkIdxLe (a b : RetrievedDoc) : Prop := a.chunk_index ≤ b.chunk_index

instance : DecidableRel chunkIdxLe := fun a b =>
  inferInstanceAs (Decidable (a.chunk_index ≤ b.chunk_index))

/-- The `for doc in file_docs` loop: the budget check happens before
appending, and only takes effect once `context_parts` is non-empty
(`partsNonempty`).  Returns the final `file_context`, running character count
and sources. -/
def addChunks (max_chars : Nat) (partsNonempty : Bool) :
    List RetrievedDoc → String → Nat → List SourceEntry →
    String × Nat × List SourceEntry
  | [], fc, cc, srcs => (fc, cc, srcs)
  | d :: ds, fc, cc, srcs =>
    let ct := chunkText d
    if max_chars < cc + fc.length + ct.length ∧ partsNonempty = true then
      (fc, cc, srcs)
    else
      addChunks max_chars partsNonempty ds (fc ++ ct) (cc + ct.length)
        (srcs ++ [mkSource d])

/-- The `for filename, file_docs in docs_by_file.items()` loop: sort each
group by chunk index, run the inner loop, append the file context to
`context_parts` (unconditionally, as the source does). -/
def buildParts (max_chars : Nat) :
    List (String × List RetrievedDoc) → List String → Nat → List SourceEntry →
    List String × List SourceEntry
  | [], parts, _, srcs => (parts, srcs)
  | (fn, ds) :: rest, parts, cc, srcs =>
    let sorted := ds.insertionSort chunkIdxLe
    let r := addChunks max_chars (!parts.isEmpty) sorted (docHeader fn) cc srcs
    buildParts max_chars rest (parts ++ [r.1]) r.2.1 r.2.2

/-- The similarity-scores display line built from the final sources list. -/
def scoresLine (sources : List SourceEntry) : String :=
  if !sources.isEmpty then
    "Similarity scores: " ++ pyJoin ", "
      ((sources.take 5).map fun s =>
        s.filename ++ " (" ++ fmtThousandths s.similarity_score ++ ")")
  else "No relevant sources found"

/-- `DocumentRetriever.get_context_for_query` (source defaults:
`max_chunks = 8`, `max_chars = 6000`, `score_threshold = 0.15`). -/
def get_context_for_query {ε V : Type} (embed : String → Except ε V)
    (store : V → Nat → ℚ → Except ε (List StoreHit)) (query : String)
    (max_chunks max_chars : Nat) (score_threshold : ℚ) : ContextBundle :=
  let relevant_docs :=
    search_similar_documents embed store query (max_chunks * 2) score_threshold true
  if relevant_docs.isEmpty then ⟨"", 0, "", []⟩
  else
    let pr := buildParts max_chars (groupByFile relevant_docs) [] 0 []
    ⟨pyJoin "\n" pr.1, pr.2.length, scoresLine pr.2, pr.2⟩

end RagCore

namespace RagCore

/-! ## Concrete collaborators used in scenario theorems -/

/-- Embedding model that returns the variant itself (a convenient vector type). -/
def embedId : String → Except String String := fun v => .ok v

/-- Store with a single indexed chunk, returned at every threshold. -/
def storeHitA : String → Nat → ℚ → Except String (List StoreHit) :=
  fun _ _ _ => .ok [⟨"AAAA", some "f", some 0, some "pdf", 1 / 2⟩]

/-- Store over an empty knowledge base. -/
def storeEmptyA : String → Nat → ℚ → Except String (List StoreHit) :=
  fun _ _ _ => .ok []

/-- Store whose every call raises. -/
def storeRaise : String → Nat → ℚ → Except String (List StoreHit) :=
  fun _ _ _ => .error "connection refused"

end RagCore

namespace RagCore

/-! ## Order instances for the result sort -/

instance : IsTotal RetrievedDoc scoreGe :=
  ⟨fun a b => le_total b.similarity_score a.similarity_score⟩

instance : IsTrans RetrievedDoc scoreGe :=
  ⟨fun _ _ _ hab hbc => le_trans hbc hab⟩

end RagCore

namespace RagCore

/-! ## Theorems -/

/-- Claim C6: query expansion of "capítulo 5" keeps the original query first,
returns at most 5 variants with no two equal up to case, and contains the five
expected lexical variants. -/
theorem C6_expand_query_scenario :
    expand_query "capítulo 5" =
      ["capítulo 5", "chapter 5", "capitulo 5", "sección 5", "tema 5"] ∧
    (expand_query "capítulo 5").head? = some "capítulo 5" ∧
    (expand_query "capítulo 5").length ≤ 5 ∧
    ((expand_query "capítulo 5").map lowerStr).Nodup ∧
    "capítulo 5" ∈ expand_query "capítulo 5" ∧
    "chapter 5" ∈ expand_query "capítulo 5" ∧
    "capitulo 5" ∈ expand_query "capítulo 5" ∧
    "sección 5" ∈ expand_query "capítulo 5" ∧
    "tema 5" ∈ expand_query "capítulo 5" := by
  decide

/-- Claim C2 (failing-input evaluation): on the normalized text
`"CAPÍTULO 1\nsome long body line that crosses the size limit here"`
(itself an output of `clean_pdf_text`), the splitter with `chunk_size = 30`
emits two copies of the header line and the body line appears in no chunk:
the natural-split path discards the buffer lines at and after the split
point, so the output does not cover the input. -/
theorem C2_chunker_gap :
    clean_pdf_text
        "CAPÍTULO 1 some long body line that crosses the size limit here" =
      "CAPÍTULO 1\nsome long body line that crosses the size limit here" ∧
    (SmartTextSplitter.split_text ⟨30, 300, true⟩
        "CAPÍTULO 1\nsome long body line that crosses the size limit here").map
        Chunk.content = ["CAPÍTULO 1", "CAPÍTULO 1"] ∧
    ((SmartTextSplitter.split_text ⟨30, 300, true⟩
        "CAPÍTULO 1\nsome long body line that crosses the size limit here").all
      fun c => !pyContains
        "some long body line that crosses the size limit here" c.content) = true := by
  decide

/-- Claim C3 (counterexample): with `chunk_size = 8` and the blank-free input
`"aaaa\nbbbb"`, the buffer reaches the chunk size with no blank line from the
midpoint onward, yet the splitter does not force a whole-buffer split with no
overlap (which would give the single chunk `"aaaa\nbbbb"`): it splits at the
midpoint and carries `"aaaa"` over as overlap, producing `["aaaa", "aaaa"]`. -/
theorem C3_cex_no_forced_split :
    (SmartTextSplitter.split_text ⟨8, 300, true⟩ "aaaa\nbbbb").map Chunk.content =
      ["aaaa", "aaaa"] ∧
    (["aaaa", "aaaa"] : List String) ≠ ["aaaa\nbbbb"] := by
  decide

/-- Claim C4: for a store that answers every threshold (function `f`), the
threshold loop tries `T`, then — only on an empty result set — `T - 0.1`,
then `T - 0.2`, never searching below the 0.1 floor, and returns the first
non-empty result set. -/
theorem C4_threshold_relaxation {ε E : Type} (search : ℚ → Except ε (List E))
    (f : ℚ → List E) (hs : ∀ t, search t = .ok (f t)) (T : ℚ) :
    tryThresholds search [T, T - 1 / 10, T - 2 / 10] = .ok (
      if T < 1 / 10 then []
      else if (f T).isEmpty then
        if T - 1 / 10 < 1 / 10 then []
        else if (f (T - 1 / 10)).isEmpty then
          if T - 2 / 10 < 1 / 10 then []
          else f (T - 2 / 10)
        else f (T - 1 / 10)
      else f T) := by
  simp only [tryThresholds, hs]
  split_ifs <;> simp_all [List.isEmpty_iff]

unseal Rat.add Rat.sub Rat.mul Rat.inv in
/-- Witness for C4 at a concrete relaxing store: with threshold 0.3 and hits
appearing only below 0.2, the loop relaxes twice and returns them. -/
theorem C4_threshold_relaxation_witness :
    tryThresholds (fun t => .ok (ε := String) (if t < 2 / 10 then [7] else []))
      [3 / 10, 3 / 10 - 1 / 10, 3 / 10 - 2 / 10] = .ok [7] := by
  rw [C4_threshold_relaxation
    (fun t => .ok (ε := String) (if t < 2 / 10 then [7] else []))
    (fun t => if t < 2 / 10 then [7] else []) (fun _ => rfl) (3 / 10)]
  simp only [Except.ok.injEq]
  decide

/-- Claim C8: whenever the underlying search yields no results (empty
knowledge base, or a raising store or embedding model), `get_context_for_query`
returns the empty bundle — empty context, zero count, no sources — rather than
raising. -/
theorem C8_empty_fallback {ε V : Type} (embed : String → Except ε V)
    (store : V → Nat → ℚ → Except ε (List StoreHit)) (query : String)
    (max_chunks max_chars : Nat) (score_threshold : ℚ)
    (h : search_similar_documents embed store query (max_chunks * 2)
      score_threshold true = []) :
    (get_context_for_query embed store query max_chunks max_chars
        score_threshold).context = "" ∧
    (get_context_for_query embed store query max_chunks max_chars
        score_threshold).context_count = 0 ∧
    (get_context_for_query embed store query max_chunks max_chars
        score_threshold).sources = [] := by
  unfold get_context_for_query
  simp [h]

unseal Rat.add Rat.sub Rat.mul Rat.inv in
/-- Witness for C8 at a store whose every call raises. -/
theorem C8_empty_fallback_witness :
    (get_context_for_query embedId storeRaise "q" 8 6000 (15 / 100)).context = "" ∧
    (get_context_for_query embedId storeRaise "q" 8 6000 (15 / 100)).context_count = 0 ∧
    (get_context_for_query embedId storeRaise "q" 8 6000 (15 / 100)).sources = [] :=
  C8_empty_fallback embedId storeRaise "q" 8 6000 (15 / 100) (by decide)

unseal Rat.add Rat.sub Rat.mul Rat.inv in
/-- Claim C1 (counterexample): with `max_chars = 1` and a store holding one
chunk, the returned context includes that chunk (one source) yet is 29
characters long — the budget is not respected once a chunk has been included,
because the check `... and context_parts` never fires for the first file
group. -/
theorem C1_cex_budget_exceeded :
    (get_context_for_query embedId storeHitA "q" 8 1 (15 / 100)).sources ≠ [] ∧
    (get_context_for_query embedId storeHitA "q" 8 1 (15 / 100)).context.length = 29 ∧
    ¬(get_context_for_query embedId storeHitA "q" 8 1 (15 / 100)).context.length ≤ 1 := by
  decide

unseal Rat.add Rat.sub Rat.mul Rat.inv in
/-- Claim C9 (counterexample): on an empty knowledge base the bundle has an
empty sources list and its `similarity_scores` field is the empty string, not
the fixed "No relevant sources found" marker — the marker branch is only
reachable from the non-empty-results path. -/
theorem C9_cex_empty_marker :
    (get_context_for_query embedId storeEmptyA "q" 8 6000 (15 / 100)).sources = [] ∧
    (get_context_for_query embedId storeEmptyA "q" 8 6000 (15 / 100)).similarity_scores = "" ∧
    ("" : String) ≠ "No relevant sources found" := by
  decide

/-- The formatting loop preserves pairwise-distinct contents: a hit is only
appended when its content differs from every accumulated result. -/
theorem formatHits_pairwise (sq : String) (hits : List StoreHit)
    (acc : List RetrievedDoc)
    (h : acc.Pairwise fun a b => a.content ≠ b.content) :
    (formatHits sq acc hits).Pairwise fun a b => a.content ≠ b.content := by
  induction hits generalizing acc with
  | nil => exact h
  | cons r rs ih =>
    have hstep : (if acc.any (fun x => x.content == r.content) then acc
        else acc ++ [⟨r.content, r.filename.getD "unknown", r.chunk_index.getD 0,
          r.score, r.content_type.getD "unknown", sq⟩]).Pairwise
        (fun a b => a.content ≠ b.content) := by
      by_cases hd : acc.any (fun x => x.content == r.content)
      · simpa [hd] using h
      · rw [if_neg hd, List.pairwise_append]
        refine ⟨h, List.pairwise_singleton _ _, ?_⟩
        intro a ha b hb
        rw [List.mem_singleton] at hb
        subst hb
        have hne : ∀ x ∈ acc, ¬x.content = r.content := by simpa using hd
        exact hne a ha
    simpa [formatHits] using ih _ hstep

/-- The per-variant loop preserves pairwise-distinct contents. -/
theorem searchLoop_pairwise {ε V : Type} (embed : String → Except ε V)
    (store : V → Nat → ℚ → Except ε (List StoreHit)) (limit : Nat) (st : ℚ)
    (qs : List String) (acc res : List RetrievedDoc)
    (h : acc.Pairwise fun a b => a.content ≠ b.content)
    (hr : searchLoop embed store limit st qs acc = .ok res) :
    res.Pairwise fun a b => a.content ≠ b.content := by
  induction qs generalizing acc with
  | nil =>
    simp only [searchLoop, Except.ok.injEq] at hr
    exact hr ▸ h
  | cons q qs ih =>
    rw [searchLoop] at hr
    split at hr
    · cases hr
    · split at hr
      · cases hr
      · exact ih _ (formatHits_pairwise _ _ _ h) hr

/-- Claim C7: for every embedding model, vector store, query and limit, the
result list of `search_similar_documents` has pairwise distinct content
texts, is sorted by descending similarity score, and has length at most
`limit`. -/
theorem C7_search_invariants {ε V : Type} (embed : String → Except ε V)
    (store : V → Nat → ℚ → Except ε (List StoreHit)) (query : String)
    (limit : Nat) (score_threshold : ℚ) (use_query_expansion : Bool) :
    (search_similar_documents embed store query limit score_threshold
        use_query_expansion).Pairwise (fun a b => a.content ≠ b.content) ∧
    (search_similar_documents embed store query limit score_threshold
        use_query_expansion).Sorted scoreGe ∧
    (search_similar_documents embed store query limit score_threshold
        use_query_expansion).length ≤ limit := by
  unfold search_similar_documents
  dsimp only
  cases hr : searchLoop embed store limit score_threshold
      (if use_query_expansion then expand_query query else [query]) [] with
  | error e => simp
  | ok all =>
    dsimp only
    have hpw : all.Pairwise (fun a b => a.content ≠ b.content) :=
      searchLoop_pairwise _ _ _ _ _ _ _ List.Pairwise.nil hr
    refine ⟨?_, ?_, ?_⟩
    · exact List.Pairwise.sublist (List.take_sublist _ _)
        (((List.perm_insertionSort scoreGe all).pairwise_iff
          (fun hxy => Ne.symm hxy)).mpr hpw)
    · exact List.Pairwise.sublist (List.take_sublist _ _)
        (List.sorted_insertionSort scoreGe all)
    · rw [List.length_take]
      exact inf_le_left

/-! ### Structure of the cleaned text (towards C10 and C5) -/

/-- `splitNl` never returns an empty list of lines. -/
theorem splitNl_ne_nil (l : List Char) : splitNl l ≠ [] := by
  cases l with
  | nil => simp [splitNl]
  | cons c cs =>
    rw [splitNl]
    cases hs : splitNl cs with
    | nil => simp
    | cons r rs => dsimp only; split <;> simp

/-- Lines produced by `splitNl` contain no newline character. -/
theorem splitNl_no_nl (l : List Char) (p : List Char) (hp : p ∈ splitNl l) :
    '\n' ∉ p := by
  induction l generalizing p with
  | nil =>
    rw [splitNl, List.mem_singleton] at hp
    subst hp; simp
  | cons c cs ih =>
    rw [splitNl] at hp
    cases hs : splitNl cs with
    | nil => exact absurd hs (splitNl_ne_nil cs)
    | cons r rs =>
      rw [hs] at hp
      dsimp only at hp
      by_cases hc : c = '\n'
      · rw [if_pos hc] at hp
        rcases List.mem_cons.mp hp with h1 | h2
        · subst h1; simp
        · exact ih p (by rw [hs]; exact h2)
      · rw [if_neg hc] at hp
        rcases List.mem_cons.mp hp with h1 | h2
        · subst h1
          intro hmem
          rcases List.mem_cons.mp hmem with h3 | h4
          · exact hc h3.symm
          · exact ih r (by rw [hs]; exact List.mem_cons_self r rs) h4
        · exact ih p (by rw [hs]; exact List.mem_cons_of_mem r h2)

/-- A newline-free list is a single line. -/
theorem splitNl_of_no_nl (l : List Char) (h : '\n' ∉ l) : splitNl l = [l] := by
  induction l with
  | nil => rfl
  | cons c cs ih =>
    rw [splitNl, ih (fun hm => h (List.mem_cons_of_mem c hm))]
    dsimp only
    rw [if_neg (fun hc => h (by rw [hc]; exact List.mem_cons_self _ _))]

/-- Splitting after a newline-free prefix peels off one line. -/
theorem splitNl_append (l t : List Char) (h : '\n' ∉ l) :
    splitNl (l ++ '\n' :: t) = l :: splitNl t := by
  induction l with
  | nil =>
    rw [List.nil_append, splitNl]
    cases hs : splitNl t with
    | nil => exact absurd hs (splitNl_ne_nil t)
    | cons r rs => simp
  | cons c cs ih =>
    rw [List.cons_append, splitNl,
      ih (fun hm => h (List.mem_cons_of_mem c hm))]
    dsimp only
    rw [if_neg (fun hc => h (by rw [hc]; exact List.mem_cons_self _ _))]

/-- `splitNl` inverts `joinNl` on non-empty lists of newline-free lines. -/
theorem splitNl_joinNl (ls : List (List Char)) (hne : ls ≠ [])
    (h : ∀ l ∈ ls, '\n' ∉ l) : splitNl (joinNl ls) = ls := by
  induction ls with
  | nil => exact absurd rfl hne
  | cons l ls ih =>
    cases ls with
    | nil => exact splitNl_of_no_nl l (h l (List.mem_cons_self l []))
    | cons l2 ls2 =>
      show splitNl (l ++ '\n' :: joinNl (l2 :: ls2)) = l :: l2 :: ls2
      rw [splitNl_append l _ (h l (List.mem_cons_self l _))]
      rw [ih (by simp) (fun x hx => h x (List.mem_cons_of_mem l hx))]

/-- A list whose head fails `p` is unchanged by `dropWhile p`. -/
theorem dropWhile_head_false (p : Char → Bool) (l : List Char)
    (h : ∀ c, l.head? = some c → p c = false) : l.dropWhile p = l := by
  cases l with
  | nil => rfl
  | cons x xs =>
    rw [List.dropWhile_cons, if_neg (by simp [h x rfl])]

/-- The head of a `dropWhile p` result fails `p`. -/
theorem head_dropWhile_false (p : Char → Bool) (l : List Char) (c : Char)
    (h : (l.dropWhile p).head? = some c) : p c = false := by
  induction l with
  | nil => simp [List.dropWhile] at h
  | cons x xs ih =>
    rw [List.dropWhile_cons] at h
    by_cases hx : p x
    · rw [if_pos hx] at h
      exact ih h
    · rw [if_neg hx] at h
      simp only [List.head?_cons, Option.some.injEq] at h
      subst h
      simpa using hx

/-- `dropWhile` does not change the last element when its result is
non-empty. -/
theorem getLast_dropWhile (p : Char → Bool) (l : List Char)
    (h : l.dropWhile p ≠ []) : (l.dropWhile p).getLast? = l.getLast? := by
  induction l with
  | nil => simp at h
  | cons x xs ih =>
    rw [List.dropWhile_cons] at h ⊢
    by_cases hx : p x
    · rw [if_pos hx] at h ⊢
      rw [ih h]
      cases xs with
      | nil => simp [List.dropWhile] at h
      | cons y ys => rw [List.getLast?_cons_cons]
    · rw [if_neg hx]

/-- A member of a stripped list is a member of the original list. -/
theorem mem_stripChars (c : Char) (l : List Char) (h : c ∈ stripChars l) :
    c ∈ l := by
  unfold stripChars at h
  rw [List.mem_reverse] at h
  have h2 := (List.dropWhile_sublist pySpace).subset h
  rw [List.mem_reverse] at h2
  exact (List.dropWhile_sublist pySpace).subset h2

/-- The first character of a stripped list is not whitespace. -/
theorem stripChars_head (l : List Char) (c : Char)
    (h : (stripChars l).head? = some c) : pySpace c = false := by
  unfold stripChars at h
  rw [List.head?_reverse] at h
  have hnz : (l.dropWhile pySpace).reverse.dropWhile pySpace ≠ [] := by
    intro hz; rw [hz] at h; simp at h
  rw [getLast_dropWhile pySpace _ hnz, List.getLast?_reverse] at h
  exact head_dropWhile_false pySpace _ c h

/-- The last character of a stripped list is not whitespace. -/
theorem stripChars_getLast (l : List Char) (c : Char)
    (h : (stripChars l).getLast? = some c) : pySpace c = false := by
  unfold stripChars at h
  rw [List.getLast?_reverse] at h
  exact head_dropWhile_false pySpace _ c h

/-- Stripping is the identity on a list with non-whitespace endpoints. -/
theorem stripChars_eq_self (l : List Char)
    (h1 : ∀ c, l.head? = some c → pySpace c = false)
    (h2 : ∀ c, l.getLast? = some c → pySpace c = false) :
    stripChars l = l := by
  unfold stripChars
  rw [dropWhile_head_false pySpace l h1]
  rw [dropWhile_head_false pySpace l.reverse
    (fun c hc => h2 c (by rwa [List.head?_reverse] at hc))]
  exact List.reverse_reverse l

/-- A join starting with a non-empty line is non-empty. -/
theorem joinNl_cons_ne_nil (l : List Char) (ls : List (List Char))
    (hl : l ≠ []) : joinNl (l :: ls) ≠ [] := by
  cases ls with
  | nil => exact hl
  | cons l2 ls2 =>
    show l ++ '\n' :: joinNl (l2 :: ls2) ≠ []
    simp [hl]

/-- The head of a join is the head of its first line, when non-empty. -/
theorem joinNl_head (l : List Char) (ls : List (List Char)) (hl : l ≠ []) :
    (joinNl (l :: ls)).head? = l.head? := by
  cases ls with
  | nil => rfl
  | cons l2 ls2 =>
    show (l ++ '\n' :: joinNl (l2 :: ls2)).head? = l.head?
    exact List.head?_append_of_ne_nil l hl

/-- The last character of a join of non-empty lines is the last character of
one of the lines. -/
theorem joinNl_getLast (ls : List (List Char)) (c : Char)
    (hne : ∀ l ∈ ls, l ≠ []) (h : (joinNl ls).getLast? = some c) :
    ∃ l ∈ ls, l.getLast? = some c := by
  induction ls with
  | nil => simp [joinNl] at h
  | cons l ls ih =>
    cases ls with
    | nil => exact ⟨l, List.mem_cons_self l [], h⟩
    | cons l2 ls2 =>
      have hj : joinNl (l :: l2 :: ls2) = l ++ '\n' :: joinNl (l2 :: ls2) := rfl
      rw [hj, List.getLast?_append] at h
      have hjne : joinNl (l2 :: ls2) ≠ [] :=
        joinNl_cons_ne_nil l2 ls2 (hne l2 (by simp))
      obtain ⟨d, ds, hds⟩ : ∃ d ds, joinNl (l2 :: ls2) = d :: ds := by
        cases hcase : joinNl (l2 :: ls2) with
        | nil => exact absurd hcase hjne
        | cons d ds => exact ⟨d, ds, rfl⟩
      rw [hds, List.getLast?_cons_cons] at h
      have h3 : (joinNl (l2 :: ls2)).getLast? = some c := by
        rw [hds]
        cases hg : (d :: ds).getLast? with
        | none => exact absurd (List.getLast?_eq_none_iff.mp hg) (by simp)
        | some e =>
          rw [hg] at h
          simpa using h
      obtain ⟨w, hw, hwl⟩ := ih (fun x hx => hne x (List.mem_cons_of_mem l hx)) h3
      exact ⟨w, List.mem_cons_of_mem l hw, hwl⟩

/-- Every line kept by `filterLines` is a stripped original line, non-empty
and of length at least 2. -/
theorem mem_filterLines (ls : List (List Char)) (s : List Char)
    (hs : s ∈ filterLines ls) :
    ∃ l ∈ ls, s = stripChars l ∧ s ≠ [] ∧ 2 ≤ s.length := by
  unfold filterLines at hs
  rw [List.mem_filterMap] at hs
  obtain ⟨l, hl, hf⟩ := hs
  dsimp only at hf
  by_cases h1 : (stripChars l).isEmpty
  · simp [h1] at hf
  · by_cases h2 : isDigits (stripChars l) ∧ (stripChars l).length ≤ 3
    · simp [h1, h2] at hf
    · by_cases h3 : 1 < (stripChars l).length
      · rw [if_neg (by simpa using h1), if_neg h2, if_pos h3,
          Option.some.injEq] at hf
        subst hf
        exact ⟨l, hl, rfl, by simpa using h1, h3⟩
      · simp [h1, h2, h3] at hf

/-- Every line the clean pipeline keeps satisfies the structural facts needed
below: non-empty, length ≥ 2, newline-free, whitespace-free endpoints. -/
theorem kept_line_facts (t : List Char) (s : List Char)
    (hsk : s ∈ filterLines (splitNl t)) :
    s ≠ [] ∧ 2 ≤ s.length ∧ '\n' ∉ s ∧
      (∀ c, s.head? = some c → pySpace c = false) ∧
      (∀ c, s.getLast? = some c → pySpace c = false) := by
  obtain ⟨o, ho, hso, hsne, hslen⟩ := mem_filterLines _ s hsk
  refine ⟨hsne, hslen, ?_, ?_, ?_⟩
  · intro hmem
    exact splitNl_no_nl t o ho (mem_stripChars '\n' o (hso ▸ hmem))
  · intro c hc
    exact stripChars_head o c (hso ▸ hc)
  · intro c hc
    exact stripChars_getLast o c (hso ▸ hc)

/-- Claim C10: every line of a non-empty `clean_pdf_text` output has length
at least 2: beyond dropping empty lines and standalone short numeric lines,
the normalizer also discards every single-character line, whatever the
character. -/
theorem C10_min_line_length (x : String) (l : List Char)
    (hl : l ∈ splitNl (clean_pdf_text x).data) (hne : clean_pdf_text x ≠ "") :
    2 ≤ l.length := by
  unfold clean_pdf_text at hl hne
  by_cases hx : x = ""
  · rw [if_pos hx] at hne
    exact absurd rfl hne
  · rw [if_neg hx] at hl hne
    have hd : ∀ y : List Char, (String.mk y).data = y := fun _ => rfl
    rw [hd (cleanChars x.data)] at hl
    unfold cleanChars at hl hne
    cases hk : filterLines (splitNl (preClean x.data)) with
    | nil =>
      rw [hk] at hne
      exact absurd rfl hne
    | cons s1 srest =>
      rw [hk] at hl
      have hfacts := fun s hs => kept_line_facts (preClean x.data) s (hk ▸ hs)
      have h1 := hfacts s1 (List.mem_cons_self s1 srest)
      have hstrip : stripChars (joinNl (s1 :: srest)) = joinNl (s1 :: srest) := by
        apply stripChars_eq_self
        · intro c hc
          rw [joinNl_head s1 srest h1.1] at hc
          exact h1.2.2.2.1 c hc
        · intro c hc
          obtain ⟨w, hw, hwl⟩ := joinNl_getLast (s1 :: srest) c
            (fun z hz => (hfacts z hz).1) hc
          exact (hfacts w hw).2.2.2.2 c hwl
      rw [hstrip, splitNl_joinNl (s1 :: srest) (by simp)
        (fun z hz => (hfacts z hz).2.2.1)] at hl
      exact (hfacts l hl).2.1

/-- Witness for C10 at a concrete input whose cleaned form is one line. -/
theorem C10_min_line_length_witness : 2 ≤ ("ab cd".data).length :=
  C10_min_line_length "ab cd" "ab cd".data (by decide) (by decide)

/-- `findIdx?` finds nothing when the predicate fails everywhere. -/
theorem findIdx?_none_of_all_false {α : Type} (p : α → Bool) (l : List α)
    (h : ∀ x ∈ l, p x = false) : ∀ i, List.findIdx? p l i = none := by
  induction l with
  | nil => intro i; exact List.findIdx?_nil
  | cons x xs ih =>
    intro i
    rw [List.findIdx?_cons, if_neg (by simp [h x (List.mem_cons_self x xs)])]
    exact ih (fun z hz => h z (List.mem_cons_of_mem x hz)) (i + 1)

/-- `_find_natural_split` falls back to the midpoint when no line from the
midpoint onward is blank. -/
theorem find_natural_split_no_blank (self : SmartTextSplitter)
    (lines : List String)
    (h : ∀ l ∈ lines.drop (lines.length / 2), (pyStrip l).isEmpty = false) :
    self.find_natural_split lines = lines.length / 2 := by
  unfold SmartTextSplitter.find_natural_split
  dsimp only
  rw [findIdx?_none_of_all_false _ _ h 0]

/-- Claim C3 (amended): when the buffer reaches `chunk_size` on a line with no
chapter marker and no line from the buffer's midpoint onward is blank, the
splitter performs the `split_point > 0` natural split at the midpoint,
carrying the up-to-3 lines before the midpoint as overlap; the whole-buffer
forced split with no overlap and cleared metadata happens only when the
midpoint index is 0, i.e. when the buffer consists of a single line. -/
theorem C3_split_step_midpoint (self : SmartTextSplitter) (st : SplitState)
    (line : String)
    (hci : extract_chapter_info line = none)
    (hsize : self.chunk_size ≤ (st.current_chunk ++ line ++ "\n").length)
    (hnb : ∀ l ∈ (st.current_chunk_lines ++ [line]).drop
        ((st.current_chunk_lines ++ [line]).length / 2),
      (pyStrip l).isEmpty = false) :
    (0 < (st.current_chunk_lines ++ [line]).length / 2 →
      self.split_step st line = {
        chunks := st.chunks ++ [⟨pyStrip (joinLines
          ((st.current_chunk_lines ++ [line]).take
            ((st.current_chunk_lines ++ [line]).length / 2))), st.chunk_metadata⟩],
        current_chunk := joinLines (((st.current_chunk_lines ++ [line]).take
          ((st.current_chunk_lines ++ [line]).length / 2)).drop
          ((st.current_chunk_lines ++ [line]).length / 2 - 3)) ++ "\n",
        current_chunk_lines := ((st.current_chunk_lines ++ [line]).take
          ((st.current_chunk_lines ++ [line]).length / 2)).drop
          ((st.current_chunk_lines ++ [line]).length / 2 - 3),
        chunk_metadata := st.chunk_metadata }) ∧
    ((st.current_chunk_lines ++ [line]).length / 2 = 0 →
      self.split_step st line = {
        chunks := st.chunks ++
          [⟨pyStrip (st.current_chunk ++ line ++ "\n"), st.chunk_metadata⟩],
        current_chunk := "",
        current_chunk_lines := [],
        chunk_metadata := none }) := by
  unfold SmartTextSplitter.split_step
  rw [if_neg (by simp [hci])]
  dsimp only
  rw [if_pos hsize, find_natural_split_no_blank self _ hnb]
  constructor
  · intro hpos
    rw [if_pos hpos]
    simp [hci]
  · intro hzero
    rw [hzero, if_neg (lt_irrefl 0)]
    simp [hci]

/-- Witness for the amended C3 at the concrete state of the counterexample:
buffer `"aaaa\n"` ++ line `"bbbb"` with `chunk_size = 8`. -/
theorem C3_split_step_midpoint_witness :
    SmartTextSplitter.split_step ⟨8, 300, true⟩ ⟨[], "aaaa\n", ["aaaa"], none⟩
      "bbbb" =
      { chunks := [⟨"aaaa", none⟩], current_chunk := "aaaa\n",
        current_chunk_lines := ["aaaa"], chunk_metadata := none } := by
  have h := (C3_split_step_midpoint ⟨8, 300, true⟩ ⟨[], "aaaa\n", ["aaaa"], none⟩
    "bbbb" (by decide) (by decide) (by decide)).1 (by decide)
  rw [h]
  decide

/-! ### Context assembly: structure of `addChunks` and `buildParts` -/

/-- `addChunks` appends the chunk texts of some sub-multiset `taken` of the
docs to the file context, records exactly their source entries, and keeps the
initial file context as a prefix.  Every appended chunk text appears whole in
the resulting file context. -/
theorem addChunks_spec (mc : Nat) (pn : Bool) (ds : List RetrievedDoc)
    (fc : String) (cc : Nat) (srcs : List SourceEntry) :
    ∃ taken : List RetrievedDoc,
      (addChunks mc pn ds fc cc srcs).2.2 = srcs ++ taken.map mkSource ∧
      (∀ d ∈ taken, d ∈ ds) ∧
      (∀ d ∈ taken, (chunkText d).data <:+: (addChunks mc pn ds fc cc srcs).1.data) ∧
      ∃ rest : String, (addChunks mc pn ds fc cc srcs).1 = fc ++ rest := by
  induction ds generalizing fc cc srcs with
  | nil =>
    refine ⟨[], by simp [addChunks], by simp, by simp, "", ?_⟩
    show fc = fc ++ ""
    apply String.ext
    simp [String.data_append]
  | cons d ds ih =>
    rw [addChunks]
    by_cases hbr : mc < cc + fc.length + (chunkText d).length ∧ pn = true
    · rw [if_pos hbr]
      refine ⟨[], by simp, by simp, by simp, "", ?_⟩
      show fc = fc ++ ""
      apply String.ext
      simp [String.data_append]
    · rw [if_neg hbr]
      obtain ⟨taken, hsrc, hmem, hinf, rest, hrest⟩ :=
        ih (fc ++ chunkText d) (cc + (chunkText d).length) (srcs ++ [mkSource d])
      refine ⟨d :: taken, by simp [hsrc], ?_, ?_, chunkText d ++ rest, ?_⟩
      · intro z hz
        rcases List.mem_cons.mp hz with h1 | h2
        · exact h1 ▸ List.mem_cons_self d ds
        · exact List.mem_cons_of_mem d (hmem z h2)
      · intro z hz
        rcases List.mem_cons.mp hz with h1 | h2
        · subst h1
          rw [hrest]
          exact ⟨fc.data, rest.data, by simp [String.data_append]⟩
        · exact hinf z h2
      · rw [hrest]
        apply String.ext
        simp [String.data_append]

/-- `buildParts` only appends to the parts and to the sources, and every
recorded source comes from a doc of one of the file groups whose whole chunk
text appears in one of the parts. -/
theorem buildParts_spec (mc : Nat) (gs : List (String × List RetrievedDoc))
    (parts : List String) (cc : Nat) (srcs : List SourceEntry) :
    ∃ news : List SourceEntry, ∃ more : List String,
      (buildParts mc gs parts cc srcs).1 = parts ++ more ∧
      (buildParts mc gs parts cc srcs).2 = srcs ++ news ∧
      ∀ s ∈ news, ∃ d, (∃ g ∈ gs, d ∈ g.2) ∧ mkSource d = s ∧
        ∃ part ∈ (buildParts mc gs parts cc srcs).1,
          (chunkText d).data <:+: part.data := by
  induction gs generalizing parts cc srcs with
  | nil => exact ⟨[], [], by simp [buildParts], by simp [buildParts], by simp⟩
  | cons g gs ih =>
    obtain ⟨fn, ds⟩ := g
    rw [buildParts]
    obtain ⟨taken, hsrc, hmem, hinf, rest, hrest⟩ := addChunks_spec mc
      (!parts.isEmpty) (ds.insertionSort chunkIdxLe) (docHeader fn) cc srcs
    set r := addChunks mc (!parts.isEmpty) (ds.insertionSort chunkIdxLe)
      (docHeader fn) cc srcs with hr
    obtain ⟨news, more, hp, hs, hfact⟩ := ih (parts ++ [r.1]) r.2.1 r.2.2
    refine ⟨taken.map mkSource ++ news, [r.1] ++ more, ?_, ?_, ?_⟩
    · rw [hp, List.append_assoc]
    · rw [hs, hsrc, List.append_assoc]
    · intro s hsn
      rcases List.mem_append.mp hsn with h1 | h2
      · obtain ⟨d, hd, hds⟩ := List.mem_map.mp h1
        refine ⟨d, ⟨(fn, ds), List.mem_cons_self _ _, ?_⟩, hds, ?_⟩
        · exact ((ds.perm_insertionSort chunkIdxLe).mem_iff).mp (hmem d hd)
        · refine ⟨r.1, ?_, hinf d hd⟩
          rw [hp]
          simp
      · obtain ⟨d, ⟨g2, hg2, hdg⟩, hmk, part, hpart, hpinf⟩ := hfact s h2
        exact ⟨d, ⟨g2, List.mem_cons_of_mem _ hg2, hdg⟩, hmk, part, hpart, hpinf⟩

/-- The two-or-more-lines equation of `pyJoin`. -/
theorem pyJoin_cons_cons (sep q q2 : String) (qs : List String) :
    pyJoin sep (q :: q2 :: qs) = q ++ sep ++ pyJoin sep (q2 :: qs) := rfl

/-- A part of a join is an infix of the join. -/
theorem mem_pyJoin_part (sep p : String) (ps : List String) (hp : p ∈ ps) :
    p.data <:+: (pyJoin sep ps).data := by
  induction ps with
  | nil => cases hp
  | cons q qs ih =>
    cases qs with
    | nil =>
      rw [List.mem_singleton] at hp
      subst hp
      exact ⟨[], [], by simp [pyJoin]⟩
    | cons q2 qs2 =>
      rcases List.mem_cons.mp hp with h1 | h2
      · subst h1
        refine ⟨[], (sep ++ pyJoin sep (q2 :: qs2)).data, ?_⟩
        show p.data ++ (sep ++ pyJoin sep (q2 :: qs2)).data =
          (pyJoin sep (p :: q2 :: qs2)).data
        rw [pyJoin_cons_cons]
        simp [String.data_append]
      · obtain ⟨s, t, hs⟩ := ih h2
        refine ⟨(q ++ sep).data ++ s, t, ?_⟩
        show (q ++ sep).data ++ s ++ p.data ++ t = (pyJoin sep (q :: q2 :: qs2)).data
        rw [pyJoin_cons_cons]
        simp only [String.data_append, List.append_assoc]
        rw [← hs]
        simp

/-- Members of any group after an insertion are old members or the inserted
doc. -/
theorem mem_insertByFile (groups : List (String × List RetrievedDoc))
    (d : RetrievedDoc) (g : String × List RetrievedDoc)
    (hg : g ∈ insertByFile groups d) (x : RetrievedDoc) (hx : x ∈ g.2) :
    (∃ q ∈ groups, x ∈ q.2) ∨ x = d := by
  induction groups with
  | nil =>
    rw [insertByFile, List.mem_singleton] at hg
    subst hg
    rcases List.mem_singleton.mp hx with h1
    exact Or.inr h1
  | cons p ps ih =>
    obtain ⟨k, grp⟩ := p
    rw [insertByFile] at hg
    by_cases hk : k = d.filename
    · rw [if_pos hk] at hg
      rcases List.mem_cons.mp hg with h1 | h2
      · subst h1
        rcases List.mem_append.mp hx with h3 | h4
        · exact Or.inl ⟨(k, grp), List.mem_cons_self _ _, h3⟩
        · exact Or.inr (List.mem_singleton.mp h4)
      · exact Or.inl ⟨g, List.mem_cons_of_mem _ h2, hx⟩
    · rw [if_neg hk] at hg
      rcases List.mem_cons.mp hg with h1 | h2
      · subst h1
        exact Or.inl ⟨(k, grp), List.mem_cons_self _ _, hx⟩
      · rcases ih h2 with ⟨q, hq, hqx⟩ | h3
        · exact Or.inl ⟨q, List.mem_cons_of_mem _ hq, hqx⟩
        · exact Or.inr h3

/-- Members of the groups of a fold of insertions come from the accumulator
or from the folded docs. -/
theorem mem_groupByFile_aux (docs : List RetrievedDoc)
    (acc : List (String × List RetrievedDoc)) (g : String × List RetrievedDoc)
    (hg : g ∈ docs.foldl insertByFile acc) (x : RetrievedDoc) (hx : x ∈ g.2) :
    (∃ q ∈ acc, x ∈ q.2) ∨ x ∈ docs := by
  induction docs generalizing acc with
  | nil => exact Or.inl ⟨g, hg, hx⟩
  | cons d ds ih =>
    rw [List.foldl_cons] at hg
    rcases ih (insertByFile acc d) hg with ⟨q, hq, hqx⟩ | h2
    · rcases mem_insertByFile acc d q hq x hqx with h3 | h4
      · exact Or.inl h3
      · exact Or.inr (h4 ▸ List.mem_cons_self d ds)
    · exact Or.inr (List.mem_cons_of_mem d h2)

/-- Every member of a file group is one of the grouped docs. -/
theorem mem_groupByFile (docs : List RetrievedDoc)
    (g : String × List RetrievedDoc) (hg : g ∈ groupByFile docs)
    (x : RetrievedDoc) (hx : x ∈ g.2) : x ∈ docs := by
  rcases mem_groupByFile_aux docs [] g hg x hx with ⟨q, hq, _⟩ | h2
  · cases hq
  · exact h2

/-- Claim C1 (amended): every recorded source of the context bundle comes
from one of the retrieved docs, and that doc's full chunk text — label,
content and trailing newline — appears whole (as a contiguous infix) in the
returned context string: no chunk is ever partially appended. -/
theorem C1_whole_chunks {ε V : Type} (embed : String → Except ε V)
    (store : V → Nat → ℚ → Except ε (List StoreHit)) (query : String)
    (mck mc : Nat) (st : ℚ) (s : SourceEntry)
    (hs : s ∈ (get_context_for_query embed store query mck mc st).sources) :
    ∃ d ∈ search_similar_documents embed store query (mck * 2) st true,
      mkSource d = s ∧
      (chunkText d).data <:+:
        (get_context_for_query embed store query mck mc st).context.data := by
  unfold get_context_for_query at hs ⊢
  dsimp only at hs ⊢
  by_cases hrel : (search_similar_documents embed store query (mck * 2) st
      true).isEmpty
  · rw [if_pos hrel] at hs
    cases hs
  · rw [if_neg hrel] at hs ⊢
    dsimp only at hs ⊢
    obtain ⟨news, more, hparts, hsrcs, hfact⟩ := buildParts_spec mc
      (groupByFile (search_similar_documents embed store query (mck * 2) st true))
      [] 0 []
    rw [hsrcs, List.nil_append] at hs
    obtain ⟨d, ⟨g, hg, hdg⟩, hmk, part, hpart, hinf⟩ := hfact s hs
    refine ⟨d, ?_, hmk, ?_⟩
    · exact mem_groupByFile _ g hg d hdg
    · exact hinf.trans (mem_pyJoin_part "\n" part _ hpart)

unseal Rat.add Rat.sub Rat.mul Rat.inv in
/-- Witness for the amended C1 at the counterexample store: the single
recorded source's chunk text appears whole in the context even though the
budget was exceeded. -/
theorem C1_whole_chunks_witness :
    ∃ d ∈ search_similar_documents embedId storeHitA "q" (8 * 2) (15 / 100) true,
      mkSource d = (⟨"f", 0, 1 / 2, "pdf", "q"⟩ : SourceEntry) ∧
      (chunkText d).data <:+:
        (get_context_for_query embedId storeHitA "q" 8 1 (15 / 100)).context.data :=
  C1_whole_chunks embedId storeHitA "q" 8 1 (15 / 100)
    ⟨"f", 0, 1 / 2, "pdf", "q"⟩ (by decide)

/-- Insertion never empties the group list. -/
theorem insertByFile_ne_nil (groups : List (String × List RetrievedDoc))
    (d : RetrievedDoc) : insertByFile groups d ≠ [] := by
  cases groups with
  | nil => simp [insertByFile]
  | cons p ps =>
    obtain ⟨k, grp⟩ := p
    rw [insertByFile]
    split <;> simp

/-- A fold of insertions starting from a non-empty accumulator or folding a
non-empty doc list yields a non-empty group list. -/
theorem foldl_insertByFile_ne_nil (docs : List RetrievedDoc)
    (acc : List (String × List RetrievedDoc)) (h : acc ≠ [] ∨ docs ≠ []) :
    docs.foldl insertByFile acc ≠ [] := by
  induction docs generalizing acc with
  | nil =>
    rcases h with h1 | h2
    · simpa using h1
    · exact absurd rfl h2
  | cons d ds ih =>
    rw [List.foldl_cons]
    exact ih (insertByFile acc d) (Or.inl (insertByFile_ne_nil acc d))

/-- Insertion keeps every group non-empty. -/
theorem insertByFile_groups_ne (groups : List (String × List RetrievedDoc))
    (d : RetrievedDoc) (hinv : ∀ g ∈ groups, g.2 ≠ [])
    (g : String × List RetrievedDoc) (hg : g ∈ insertByFile groups d) :
    g.2 ≠ [] := by
  induction groups with
  | nil =>
    rw [insertByFile, List.mem_singleton] at hg
    subst hg
    simp
  | cons p ps ih =>
    obtain ⟨k, grp⟩ := p
    rw [insertByFile] at hg
    by_cases hk : k = d.filename
    · rw [if_pos hk] at hg
      rcases List.mem_cons.mp hg with h1 | h2
      · subst h1; simp
      · exact hinv g (List.mem_cons_of_mem _ h2)
    · rw [if_neg hk] at hg
      rcases List.mem_cons.mp hg with h1 | h2
      · subst h1
        exact hinv (k, grp) (List.mem_cons_self _ _)
      · exact ih (fun q hq => hinv q (List.mem_cons_of_mem _ hq)) h2

/-- Folded insertions keep every group non-empty. -/
theorem foldl_insertByFile_groups_ne (docs : List RetrievedDoc) :
    ∀ (acc : List (String × List RetrievedDoc)),
      (∀ q ∈ acc, q.2 ≠ []) → ∀ g ∈ docs.foldl insertByFile acc, g.2 ≠ [] := by
  induction docs with
  | nil => intro acc hacc q hq; exact hacc q hq
  | cons d ds ih =>
    intro acc hacc q hq
    rw [List.foldl_cons] at hq
    exact ih (insertByFile acc d) (insertByFile_groups_ne acc d hacc) q hq

/-- Every group produced by `groupByFile` is non-empty. -/
theorem groupByFile_groups_ne (docs : List RetrievedDoc)
    (g : String × List RetrievedDoc) (hg : g ∈ groupByFile docs) : g.2 ≠ [] :=
  foldl_insertByFile_groups_ne docs [] (by simp) g hg

/-- `buildParts` preserves non-emptiness of the sources accumulator. -/
theorem buildParts_sources_ne (mc : Nat)
    (gs : List (String × List RetrievedDoc)) (parts : List String) (cc : Nat)
    (srcs : List SourceEntry) (h : srcs ≠ []) :
    (buildParts mc gs parts cc srcs).2 ≠ [] := by
  obtain ⟨news, more, _, hs, _⟩ := buildParts_spec mc gs parts cc srcs
  rw [hs]
  simp [h]

/-- With the budget check disarmed (`context_parts` empty), the first doc of
a group is always recorded as a source. -/
theorem addChunks_false_ne (mc : Nat) (d : RetrievedDoc)
    (ds : List RetrievedDoc) (fc : String) (cc : Nat) :
    (addChunks mc false (d :: ds) fc cc []).2.2 ≠ [] := by
  rw [addChunks, if_neg (by simp)]
  obtain ⟨taken, hsrc, _, _, _, _⟩ := addChunks_spec mc false ds
    (fc ++ chunkText d) (cc + (chunkText d).length) ([] ++ [mkSource d])
  rw [hsrc]
  simp

/-- On the non-empty-results path the final sources list is never empty. -/
theorem sources_nonempty (mc : Nat) (docs : List RetrievedDoc)
    (hd : docs ≠ []) : (buildParts mc (groupByFile docs) [] 0 []).2 ≠ [] := by
  obtain ⟨g, gs, hgs⟩ : ∃ g gs, groupByFile docs = g :: gs := by
    cases hcase : groupByFile docs with
    | nil => exact absurd hcase (foldl_insertByFile_ne_nil docs [] (Or.inr hd))
    | cons g gs => exact ⟨g, gs, rfl⟩
  have hgne : g.2 ≠ [] := groupByFile_groups_ne docs g (by rw [hgs]; simp)
  obtain ⟨fn, ds⟩ := g
  obtain ⟨d0, ds0, hsort⟩ : ∃ d0 ds0,
      ds.insertionSort chunkIdxLe = d0 :: ds0 := by
    cases hcase : ds.insertionSort chunkIdxLe with
    | nil =>
      have hlen := (ds.perm_insertionSort chunkIdxLe).length_eq
      rw [hcase] at hlen
      exact absurd (List.length_eq_zero.mp hlen.symm) hgne
    | cons d0 ds0 => exact ⟨d0, ds0, rfl⟩
  rw [hgs, buildParts]
  rw [hsort]
  exact buildParts_sources_ne mc gs _ _ _
    (by simpa using addChunks_false_ne mc d0 ds0 (docHeader fn) 0)

/-- Claim C9 (amended): when the bundle has no sources its score line is the
empty string; when it has sources the line joins the top-5 sources as
`filename (rounded score)`, comma-separated, behind the "Similarity scores: "
prefix. -/
theorem C9_scores_line {ε V : Type} (embed : String → Except ε V)
    (store : V → Nat → ℚ → Except ε (List StoreHit)) (query : String)
    (mck mc : Nat) (st : ℚ) :
    ((get_context_for_query embed store query mck mc st).sources = [] →
      (get_context_for_query embed store query mck mc st).similarity_scores = "") ∧
    ((get_context_for_query embed store query mck mc st).sources ≠ [] →
      (get_context_for_query embed store query mck mc st).similarity_scores =
        "Similarity scores: " ++ pyJoin ", "
          (((get_context_for_query embed store query mck mc st).sources.take 5).map
            fun s => s.filename ++ " (" ++ fmtThousandths s.similarity_score ++ ")")) := by
  unfold get_context_for_query
  dsimp only
  by_cases hrel : (search_similar_documents embed store query (mck * 2) st
      true).isEmpty
  · rw [if_pos hrel]
    exact ⟨fun _ => rfl, fun h => absurd rfl h⟩
  · rw [if_neg hrel]
    dsimp only
    have hne := sources_nonempty mc
      (search_similar_documents embed store query (mck * 2) st true)
      (fun h => hrel (by rw [h]; rfl))
    refine ⟨fun h => absurd h hne, fun _ => ?_⟩
    unfold scoresLine
    rw [if_pos (by simpa using hne)]

unseal Rat.add Rat.sub Rat.mul Rat.inv in
/-- Witness for the amended C9: the empty store yields the empty score line;
a one-hit store yields the joined, prefixed line. -/
theorem C9_scores_line_witness :
    (get_context_for_query embedId storeEmptyA "q" 8 6000 (15 / 100)).similarity_scores
      = "" ∧
    (get_context_for_query embedId storeHitA "q" 8 6000 (15 / 100)).similarity_scores
      = "Similarity scores: f (0.5)" := by
  constructor
  · exact (C9_scores_line embedId storeEmptyA "q" 8 6000 (15 / 100)).1 (by decide)
  · have h := (C9_scores_line embedId storeHitA "q" 8 6000 (15 / 100)).2 (by decide)
    rw [h]
    decide
